import Mathlib

/-!
Verification of the generative-agents demo (memory stream, spatial world,
agent cognitive cycle).  Shallow embedding of `src/memory.js`,
`src/world.js` and `src/util.js`:

* JS numbers are modelled as `ℝ` (positions, scores) or `ℤ`/`ℕ`
  (timestamps in milliseconds, importance, energy, counts);
* JS `Map`s are modelled as functions with an explicit support list
  where iteration order matters (sparse TF-IDF vectors) or as plain
  functions (`token → count` document frequency, `placeId → chat`);
* fallible gateway (LLM) responses are modelled as `Option`-valued
  oracles passed to the step functions (the JS code awaits the gateway
  and treats unparseable output as `null`);
* the module-global `nextId` counter only decorates records with a
  display id, which no algorithm reads, so record ids are left `""`.
-/

namespace GenAgents

/-! ### util.js -/

/-- `clamp(v, lo, hi) = Math.max(lo, Math.min(hi, v))` on JS numbers. -/
noncomputable def clampR (v lo hi : ℝ) : ℝ := max lo (min hi v)

/-- The same `clamp` applied at integer call sites (energy, importance). -/
def clampZ (v lo hi : ℤ) : ℤ := max lo (min hi v)

/-- `dist(a, b, c, d) = Math.hypot(a - c, b - d)`. -/
noncomputable def dist (a b c d : ℝ) : ℝ := Real.sqrt ((a - c) ^ 2 + (b - d) ^ 2)

/-! ### memory.js: tokenizer -/

/-- The fixed stopword set of `memory.js`. -/
def STOPWORDS : List String :=
  ["the", "a", "an", "and", "or", "to", "of", "in", "on", "for", "with", "at",
   "from", "by", "as", "is", "are", "was", "were", "be",
   "i", "you", "he", "she", "they", "we", "me", "my", "your", "his", "her",
   "their", "our", "this", "that", "it", "its", "there", "here", "then",
   "so", "but"]

/-- One character of the cleaning pipeline of `tokenize`: lowercase, then
    replace every non letter/digit character (which covers U+3000) by a
    space.  JS uses the Unicode classes `\p{L}\p{N}`; the embedding uses
    `Char.isAlphanum` as its rendering of that class. -/
def normChar (c : Char) : Char :=
  let l := c.toLower
  if l.isAlphanum then l else ' '

/-- Split a cleaned character list on spaces, dropping empty runs (this is
    `replace(/\s+/g," ").trim().split(" ")` on the cleaned text). -/
def splitWords : List Char → List Char → List (List Char)
  | [], acc => if acc.isEmpty then [] else [acc.reverse]
  | c :: cs, acc =>
    if c = ' ' then
      if acc.isEmpty then splitWords cs [] else acc.reverse :: splitWords cs []
    else
      splitWords cs (c :: acc)

/-- `tokenize(text)` from `memory.js`: lowercased, punctuation stripped,
    whitespace-split tokens, keeping tokens of length ≥ 2 that are not
    stopwords. -/
def tokenize (text : String) : List String :=
  let words := splitWords (text.data.map normChar) []
  (words.map fun w => String.mk w).filter fun t =>
    decide (2 ≤ t.length) && !(STOPWORDS.contains t)

/-! ### memory.js: records and the stream -/

/-- `MemoryRecord` (time is `Date.getTime()` milliseconds; the token list
    and tf map are derived from `text` at construction and recomputed here
    on demand — the record is immutable). -/
structure MemoryRecord where
  id : String
  time : ℤ
  text : String
  importance : ℤ
  type : String
deriving DecidableEq, Repr

/-- `MemoryStream`: the ordered record list plus the document-frequency
    map `_df` (absent keys count as 0). -/
structure MemoryStream where
  records : List MemoryRecord
  df : String → ℕ

def MemoryStream.empty : MemoryStream := ⟨[], fun _ => 0⟩

/-- `add(record)`: push the record and bump `_df` once per *distinct*
    token of the record (the source iterates `uniq(record.tokens)`). -/
def MemoryStream.add (s : MemoryStream) (r : MemoryRecord) : MemoryStream :=
  { records := s.records ++ [r]
    df := fun t => if t ∈ tokenize r.text then s.df t + 1 else s.df t }

/-- `_idf(token) = ln((N + 1) / (df + 1)) + 1` with `N = records.length || 1`. -/
noncomputable def MemoryStream.idf (s : MemoryStream) (t : String) : ℝ :=
  let N : ℕ := if s.records.length = 0 then 1 else s.records.length
  Real.log (((N : ℝ) + 1) / ((s.df t : ℝ) + 1)) + 1

/-- A sparse `token → weight` map: the distinct-key list (the `Map`
    iteration domain) plus the weight function. -/
structure SparseVec where
  support : List String
  weight : String → ℝ

/-- `_tfidf(tfMap)`: multiply each term frequency by the current idf.
    The tf map of a token list sends `t` to its occurrence count. -/
noncomputable def MemoryStream.tfidf (s : MemoryStream) (tokens : List String) : SparseVec :=
  { support := tokens.dedup
    weight := fun t => (tokens.count t : ℝ) * s.idf t }

/-- The `normA` (resp. `normB`) accumulator of `cosineSparse`. -/
noncomputable def normSq (v : SparseVec) : ℝ :=
  (v.support.map fun t => v.weight t * v.weight t).sum

/-- The `dot` accumulator of `cosineSparse`: a key of `vecA` contributes
    only when present in `vecB` (`vecB.get(k) != null`). -/
noncomputable def dotS (a b : SparseVec) : ℝ :=
  (a.support.map fun t => a.weight t * (if t ∈ b.support then b.weight t else 0)).sum

/-- `cosineSparse(vecA, vecB)`: 0 when either norm accumulator is 0,
    otherwise the normalized dot product. -/
noncomputable def cosineSparse (a b : SparseVec) : ℝ :=
  if normSq a = 0 ∨ normSq b = 0 then 0
  else dotS a b / (Real.sqrt (normSq a) * Real.sqrt (normSq b))

/-- The relevance term of `retrieve`: cosine of the TF-IDF vectors of the
    query and of the record text.  (The source hoists the query vector out
    of the loop; `tfidf` is pure, so the value is the same.) -/
noncomputable def relevance (s : MemoryStream) (query : String) (r : MemoryRecord) : ℝ :=
  cosineSparse (s.tfidf (tokenize query)) (s.tfidf (tokenize r.text))

/-- The recency term: `0.99 ^ hours` with
    `hours = Math.max(0, (now - rec.time) / 3600000)` (real exponent). -/
noncomputable def recencyScore (timeMs nowMs : ℤ) : ℝ :=
  ((99 : ℝ) / 100) ^ (max 0 (((nowMs : ℝ) - (timeMs : ℝ)) / 3600000))

/-- The importance term: `Math.max(1, Math.min(10, rec.importance)) / 10`. -/
noncomputable def importanceTerm (r : MemoryRecord) : ℝ :=
  ((max 1 (min 10 r.importance) : ℤ) : ℝ) / 10

/-- One entry of the `scored` array built by `retrieve` (the source's
    `rec` field is called `record`: `rec` is reserved in Lean). -/
structure ScoredRec where
  record : MemoryRecord
  score : ℝ
  relevance : ℝ
  recency : ℝ
  importance : ℝ

/-- Scoring one record against a query, exactly the loop body of
    `retrieve`: `score = relevance + recency + importance`. -/
noncomputable def scoreOf (s : MemoryStream) (query : String) (now : ℤ)
    (r : MemoryRecord) : ScoredRec :=
  let rel := relevance s query r
  let rec' := recencyScore r.time now
  let imp := importanceTerm r
  ⟨r, rel + rec' + imp, rel, rec', imp⟩

/-- The `types && !types.includes(rec.type)` eligibility test (`none`
    models the `null` default: every record is eligible). -/
def passesFilter (types : Option (List String)) (r : MemoryRecord) : Bool :=
  match types with
  | none => true
  | some ts => ts.contains r.type

/-- Descending-score comparison used by `scored.sort((a,b) => b.score - a.score)`. -/
def scoreGE (a b : ScoredRec) : Prop := b.score ≤ a.score

noncomputable instance : DecidableRel scoreGE :=
  fun a b => inferInstanceAs (Decidable (b.score ≤ a.score))

instance : IsTotal ScoredRec scoreGE := ⟨fun a b => le_total b.score a.score⟩

instance : IsTrans ScoredRec scoreGE := ⟨fun _ _ _ h1 h2 => le_trans h2 h1⟩

/-- The sorted `scored` array of `retrieve` before the final `slice(0, k)`. -/
noncomputable def MemoryStream.retrieveScored (s : MemoryStream) (query : String)
    (now : ℤ) (types : Option (List String)) : List ScoredRec :=
  List.insertionSort scoreGE
    ((s.records.filter (passesFilter types)).map (scoreOf s query now))

/-- `retrieve(query, now, k, {types})`: score the eligible records, sort by
    descending score, return the first `k`. -/
noncomputable def MemoryStream.retrieve (s : MemoryStream) (query : String)
    (now : ℤ) (k : ℕ) (types : Option (List String)) : List ScoredRec :=
  (s.retrieveScored query now types).take k

/-- JS `arr.slice(-n)` for a natural `n`: start index
    `n = 0 ? 0 : max(len - n, 0)` (note `-0 === 0`, so `slice(-0)` is the
    whole array). -/
def jsSliceNeg {α : Type} (l : List α) (n : ℕ) : List α :=
  if n = 0 then l else l.drop (l.length - n)

/-- `recent(n) = records.slice(-n)`. -/
def MemoryStream.recent (s : MemoryStream) (n : ℕ) : List MemoryRecord :=
  jsSliceNeg s.records n

/-! ### Operation sequences over a stream (for the DF monotonicity claim) -/

/-- The public operations of `MemoryStream`. -/
inductive MemOp where
  | addR : MemoryRecord → MemOp
  | retrieveQ : String → ℤ → ℕ → Option (List String) → MemOp
  | recentN : ℕ → MemOp

/-- What an operation returns to its caller. -/
inductive MemOpOut where
  | unit : MemOpOut
  | scored : List ScoredRec → MemOpOut
  | recs : List MemoryRecord → MemOpOut

/-- Run one operation: `add` is the only method that assigns to
    `this.records` / `this._df`; `retrieve` and `recent` only read. -/
noncomputable def applyOp (s : MemoryStream) : MemOp → MemoryStream × MemOpOut
  | .addR r => (s.add r, .unit)
  | .retrieveQ q now k tf => (s, .scored (s.retrieve q now k tf))
  | .recentN n => (s, .recs (s.recent n))

/-- Run a sequence of operations. -/
noncomputable def applyOps (s : MemoryStream) (ops : List MemOp) : MemoryStream :=
  ops.foldl (fun st op => (applyOp st op).1) s

/-! ### world.js: spatial model -/

structure Place where
  id : String
  name : String
  x : ℝ
  y : ℝ
  r : ℝ
  desc : String

structure ChatMsg where
  speaker : String
  text : String
  time : ℤ
deriving DecidableEq

structure LogEntry where
  time : ℤ
  text : String
  place : String

/-- The world state: the fixed place registry, the per-place chat log
    (`Map placeId → messages`, modelled as an `Option`-valued function)
    and the global event log.  Rendering state is presentation-only and
    not modelled. -/
structure WorldS where
  width : ℕ
  height : ℕ
  places : List Place
  chatByPlace : String → Option (List ChatMsg)
  log : List LogEntry

/-- `nearestPlace(x, y)`: linear scan keeping the strictly closer place,
    starting from `best = null, bestD = 1e9`. -/
noncomputable def nearestPlace (w : WorldS) (x y : ℝ) : Option Place × ℝ :=
  w.places.foldl
    (fun best p =>
      let d := dist x y p.x p.y
      if d < best.2 then (some p, d) else best)
    (none, 1000000000)

/-- `placeAt(x, y)`: the nearest place when within its radius, else none. -/
noncomputable def placeAt (w : WorldS) (x y : ℝ) : Option Place :=
  let bd := nearestPlace w x y
  match bd.1 with
  | none => none
  | some p => if bd.2 ≤ p.r then some p else none

/-! ### world.js: agent state -/

structure Dest where
  x : ℝ
  y : ℝ
  placeId : String
  placeName : String

/-- Agent state (`Agent` fields that the cognitive cycle reads or
    writes).  `lastRetrievedMemoriesText`, `lastPromptText`, the daily
    plan and `tickMinutes` feed only the gateway prompt text and the UI,
    which are outside the modelled core. -/
structure AgentS where
  id : String
  name : String
  age : ℤ
  title : String
  traits : List String
  bio : String
  goals : List String
  home : String
  persona : String
  seedMemory : String
  x : ℝ
  y : ℝ
  dest : Option Dest
  speed : ℝ
  energy : ℤ
  memory : MemoryStream
  summary : String
  importanceSinceReflection : ℤ
  currentAction : String
  lastThought : String

/-- An entry of `perception.others`. -/
structure OtherInfo where
  id : String
  name : String
  action : String
deriving DecidableEq

/-- The `{id, name, action}` projection pushed into `perception.others`
    (`a.currentAction || "idle"`). -/
def mkOther (a : AgentS) : OtherInfo :=
  ⟨a.id, a.name, if a.currentAction = "" then "idle" else a.currentAction⟩

/-- A perception snapshot (`World.perceive` result). -/
structure Perception where
  place : Option Place
  placeId : Option String
  placeName : String
  others : List OtherInfo
  chat : List ChatMsg

/-- `World.perceive(agent, allAgents)`: resolve the agent's place, list
    every *other* agent resolving to the same place id, and take the last
    6 chat entries of that place. -/
noncomputable def perceive (w : WorldS) (agent : AgentS) (allAgents : List AgentS) :
    Perception :=
  let place := placeAt w agent.x agent.y
  let placeName := match place with | some p => p.name | none => "Street"
  let placeId := place.map (fun p => p.id)
  let others :=
    (allAgents.filter fun a =>
      (a.id != agent.id) &&
        (match place, placeAt w a.x a.y with
         | some p, some q => q.id == p.id
         | _, _ => false)).map mkOther
  let chat :=
    match placeId with
    | some pid => jsSliceNeg ((w.chatByPlace pid).getD []) 6
    | none => []
  ⟨place, placeId, placeName, others, chat⟩

/-- Name of the place with a given id, `""` when absent
    (`places.find(p => p.id === placeId)?.name ?? ""`). -/
def findPlaceName (w : WorldS) (pid : String) : String :=
  match w.places.find? (fun p => p.id == pid) with
  | some p => p.name
  | none => ""

/-- `postChat(placeId, speaker, text, time)`: no-op without a place id or
    a chat array; otherwise append to the place's chat and to the global
    log as `"speaker: text"`. -/
def postChat (w : WorldS) (placeId : Option String) (speaker text : String)
    (time : ℤ) : WorldS :=
  match placeId with
  | none => w
  | some pid =>
    match w.chatByPlace pid with
    | none => w
    | some arr =>
      { w with
        chatByPlace := fun q =>
          if q = pid then some (arr ++ [⟨speaker, text, time⟩]) else w.chatByPlace q
        log := w.log ++ [⟨time, speaker ++ ": " ++ text, findPlaceName w pid⟩] }

/-- `logEvent(time, text, placeId)`. -/
def logEvent (w : WorldS) (time : ℤ) (text : String) (placeId : Option String) :
    WorldS :=
  let placeName := match placeId with | some pid => findPlaceName w pid | none => ""
  { w with log := w.log ++ [⟨time, text, placeName⟩] }

/-! ### world.js: movement -/

/-- `Agent._moveTowardsDest()`: snap-and-clear within epsilon 0.01,
    otherwise advance by `min(speed, d)` along the direction to the
    destination, clamping each coordinate to `[0, 31.9]`. -/
noncomputable def moveTowardsDest (a : AgentS) : AgentS :=
  match a.dest with
  | none => a
  | some dst =>
    let d := dist a.x a.y dst.x dst.y
    if d < 0.01 then
      { a with x := dst.x, y := dst.y, dest := none }
    else
      let step := min a.speed d
      let dx := (dst.x - a.x) / d
      let dy := (dst.y - a.y) / d
      { a with
        x := clampR (a.x + dx * step) 0 31.9
        y := clampR (a.y + dy * step) 0 31.9 }

/-! ### world.js: seeding the memory stream -/

/-- The fallback seed sentences used when no `seedMemory` is provided. -/
def fallbackSeeds (a : AgentS) : List String :=
  [a.name ++ " is " ++ toString a.age ++ " years old.",
   a.name ++ " works as " ++ a.title ++ ".",
   a.name ++ " lives near " ++ a.home ++ ".",
   a.name ++ "'s traits: " ++ String.intercalate ", " a.traits ++ ".",
   a.name ++ "'s long-term goals: " ++ String.intercalate "; " a.goals ++ ".",
   a.bio]

/-- JS `String.prototype.trim()`: strip leading and trailing whitespace. -/
def jsTrim (s : String) : String :=
  String.mk (((s.data.dropWhile Char.isWhitespace).reverse.dropWhile
    Char.isWhitespace).reverse)

/-- JS `str.split(";")`: split on every semicolon, keeping empty pieces
    (`"".split(";") = [""]`). -/
def splitOnSemi : List Char → List Char → List String
  | [], acc => [String.mk acc.reverse]
  | c :: cs, acc =>
    if c = ';' then String.mk acc.reverse :: splitOnSemi cs []
    else splitOnSemi cs (c :: acc)

/-- The seed sentence list: semicolon-split, trimmed, non-empty phrases of
    `seedMemory` when present, else the fallback. -/
def seedsOf (a : AgentS) : List String :=
  if jsTrim a.seedMemory ≠ "" then
    ((splitOnSemi a.seedMemory.data []).map jsTrim).filter fun s => s != ""
  else
    fallbackSeeds a

/-- The seeding loop: add each phrase as an observation, importance
    starting at 8 and decaying by `imp = Math.max(5, imp - 1)`. -/
def addSeeds (now : ℤ) : MemoryStream → ℤ → List String → MemoryStream
  | s, _, [] => s
  | s, imp, t :: ts =>
    addSeeds now (s.add ⟨"", now, t, imp, "observation"⟩) (max 5 (imp - 1)) ts

/-- `Agent.seedInitialMemories(now)`. -/
def seedInitialMemories (a : AgentS) (now : ℤ) : AgentS :=
  { a with memory := addSeeds now a.memory 8 (seedsOf a) }

/-! ### world.js: gateway decision objects and the cognitive step -/

/-- One proposed memory item of an action decision.  `importance = none`
    models a missing field or one whose `parseInt` is `NaN`. -/
structure MemJson where
  text : String
  type : String
  importance : Option ℤ

/-- A parsed action decision.  `memories = none` models a non-array
    `memories` field. -/
structure ActionObj where
  thought : String
  action : String
  target : String
  utterance : String
  memories : Option (List MemJson)

/-- A parsed reflection response. -/
structure ReflectionObj where
  insights : List String
  summary_update : String

/-- Fast-mode importance: `clamp(parseInt(m.importance ?? 3, 10) || 3, 1, 10)`.
    A missing / non-numeric value parses to 3; a parsed 0 is falsy and the
    `|| 3` turns it into 3 as well; everything else is clamped. -/
def fastImportance : Option ℤ → ℤ
  | none => 3
  | some v => if v = 0 then 3 else clampZ v 1 10

/-- Paper-mode importance from `_rateImportancePaperStyle`: the oracle
    value is the first digit run of the gateway's reply (`none` when the
    reply has no digits, giving 3), clamped to `[1, 10]`. -/
def paperImportance : Option ℕ → ℤ
  | none => 3
  | some n => clampZ (n : ℤ) 1 10

/-- Build one stored record from a proposed memory item (step 6 of the
    cycle): text truncated to 280 chars, type coerced to
    `action`/`observation`, importance by mode. -/
def mkStepRecord (now : ℤ) (mode : String) (rate : String → Option ℕ)
    (m : MemJson) : MemoryRecord :=
  let text := String.mk (m.text.data.take 280)
  let type := if m.type = "action" then "action" else "observation"
  let imp := if mode = "paper" then paperImportance (rate text) else fastImportance m.importance
  ⟨"", now, text, imp, type⟩

/-- The `if (Array.isArray(obj.memories))` loop: add each record and add
    its importance to the reflection accumulator. -/
def addMemories (a : AgentS) (now : ℤ) (mode : String) (rate : String → Option ℕ) :
    Option (List MemJson) → AgentS
  | none => a
  | some ms =>
    ms.foldl
      (fun ag m =>
        let r := mkStepRecord now mode rate m
        { ag with
          memory := ag.memory.add r
          importanceSinceReflection := ag.importanceSinceReflection + r.importance })
      a

/-- Step 5 of the cycle: execute the decided action.  `interact` requires
    a co-located target and a non-empty utterance; `move` resolves the
    target place name with fallback to the first registered place (the JS
    code would fault on an empty registry; the registry is fixed and
    non-empty, so that branch is modelled as a no-op). -/
noncomputable def applyAction (a : AgentS) (w : WorldS) (per : Perception)
    (obj : ActionObj) (now : ℤ) : AgentS × WorldS :=
  let target := obj.target.trim
  let utterance := obj.utterance.trim
  if obj.action = "interact" then
    if (per.others.any fun o => o.name == target) ∧ utterance ≠ "" then
      ({ a with currentAction := "talking to " ++ target },
       postChat w per.placeId a.name utterance now)
    else
      ({ a with currentAction := "idle" }, w)
  else if obj.action = "move" then
    match w.places.find? (fun p => p.name == target) with
    | some p =>
      ({ a with
          dest := some ⟨p.x, p.y, p.id, p.name⟩
          currentAction := "going to " ++ p.name },
       logEvent w now (a.name ++ " heads to " ++ p.name ++ ".") (some p.id))
    | none =>
      match w.places with
      | p :: _ =>
        ({ a with
            dest := some ⟨p.x, p.y, p.id, p.name⟩
            currentAction := "going to " ++ p.name },
         logEvent w now (a.name ++ " heads to " ++ p.name ++ ".") (some p.id))
      | [] => (a, w)
  else
    ({ a with currentAction := "staying" }, w)

/-- `Agent.maybeReflect(llm, world, now)` with the gateway's reflection
    response passed as an oracle.  Below the threshold 26 nothing happens;
    otherwise insight records (importance 8, type `reflection`) are added
    when insights are present, the summary is replaced when non-empty, and
    the accumulator is reset unconditionally. -/
noncomputable def maybeReflectA (a : AgentS) (w : WorldS)
    (refl : Option ReflectionObj) (now : ℤ) : AgentS × WorldS :=
  if a.importanceSinceReflection < 26 then (a, w)
  else
    let aw : AgentS × WorldS :=
      match refl with
      | some obj =>
        if obj.insights ≠ [] then
          let recs := obj.insights.map fun ins =>
            (⟨"", now, "Insight: " ++ ins, 8, "reflection"⟩ : MemoryRecord)
          let a1 := { a with memory := recs.foldl MemoryStream.add a.memory }
          let a2 :=
            if obj.summary_update ≠ "" then { a1 with summary := obj.summary_update }
            else a1
          (a2,
           logEvent w now (a.name ++ " reflects and gains insights.")
             ((placeAt w a.x a.y).map fun p => p.id))
        else (a, w)
      | none => (a, w)
    ({ aw.1 with importanceSinceReflection := 0 }, aw.2)

/-- `Agent.step(llm, world, allAgents, now, {mode})`.  The gateway's
    action decision, the paper-mode importance rater and the reflection
    response are oracles (`none` = unparseable).  Retrieval (step 3) only
    feeds the prompt text, which is not part of the modelled state.  When
    the decision is `none` the source records the "unsure" thought, goes
    idle and returns early. -/
noncomputable def stepA (a : AgentS) (w : WorldS) (allAgents : List AgentS)
    (now : ℤ) (mode : String) (decision : Option ActionObj)
    (rate : String → Option ℕ) (refl : Option ReflectionObj) : AgentS × WorldS :=
  let a1 :=
    match a.dest with
    | some _ => { moveTowardsDest a with currentAction := "walking" }
    | none => a
  let per := perceive w a1 allAgents
  match decision with
  | none =>
    ({ a1 with
        lastThought := "I'm not sure what to do next… I'll observe for now."
        currentAction := "idle" }, w)
  | some obj =>
    let a2 := { a1 with lastThought := obj.thought }
    let a3 := addMemories a2 now mode rate obj.memories
    let aw := applyAction a3 w per obj now
    let a5 := { aw.1 with energy := clampZ (aw.1.energy - 1) 0 100 }
    maybeReflectA a5 aw.2 refl now

/-- Agent states reachable by the cycle: a freshly constructed agent
    (empty memory) after `seedInitialMemories`, then any number of
    `step`s against arbitrary worlds, co-agents and gateway responses. -/
inductive AgentEvol : AgentS → Prop where
  | seeded : ∀ (a : AgentS) (now : ℤ), a.memory.records = [] →
      AgentEvol (seedInitialMemories a now)
  | stepped : ∀ (a : AgentS) (w : WorldS) (allAgents : List AgentS) (now : ℤ)
      (mode : String) (dec : Option ActionObj) (rate : String → Option ℕ)
      (refl : Option ReflectionObj),
      AgentEvol a → AgentEvol (stepA a w allAgents now mode dec rate refl).1

/-- The stored-record invariant of the spec: importance in `[1, 10]` and
    type among the three record kinds. -/
def goodRec (r : MemoryRecord) : Prop :=
  1 ≤ r.importance ∧ r.importance ≤ 10 ∧
    (r.type = "observation" ∨ r.type = "action" ∨ r.type = "reflection")

instance (r : MemoryRecord) : Decidable (goodRec r) := by
  unfold goodRec; infer_instance

/-! ## Shared concrete data for witnesses and counterexamples -/

/-- A one-record stream used by several witnesses. -/
def rCoffee : MemoryRecord := ⟨"m1", 0, "coffee time", 5, "observation"⟩

def sOne : MemoryStream := MemoryStream.empty.add rCoffee

def rParty : MemoryRecord := ⟨"m2", 0, "coffee coffee party", 4, "action"⟩

/-! ## C10: `recent` -/

/-- C10 (amended): for every `n ≥ 1`, `recent(n)` returns exactly the last
    `min n (record count)` records in insertion order; `recent(0)` returns
    the whole record list (JS `slice(-0)` is `slice(0)`). -/
theorem recent_lastN (s : MemoryStream) (n : ℕ) :
    (1 ≤ n →
      (s.recent n).length = min n s.records.length ∧
      s.records = s.records.take (s.records.length - n) ++ s.recent n) ∧
    s.recent 0 = s.records := by
  constructor
  · intro hn
    have hne : n ≠ 0 := by omega
    unfold MemoryStream.recent jsSliceNeg
    rw [if_neg hne]
    constructor
    · rw [List.length_drop]; omega
    · exact (List.take_append_drop _ _).symm
  · rfl

/-- Witness for C10 at a one-record stream and `n = 1`. -/
theorem recent_lastN_witness :
    (sOne.recent 1).length = min 1 sOne.records.length ∧
    sOne.records = sOne.records.take (sOne.records.length - 1) ++ sOne.recent 1 :=
  (recent_lastN sOne 1).1 (by decide)

/-- C10 counterexample: the claim says `recent(0)` returns no records, but
    on a one-record stream `recent(0)` returns the record. -/
theorem recent_zero_cex : sOne.recent 0 ≠ [] := by decide

/-! ## C9: document frequency is append-only and monotone -/

theorem df_le_applyOp (s : MemoryStream) (op : MemOp) (t : String) :
    s.df t ≤ ((applyOp s op).1).df t := by
  cases op with
  | addR r =>
    show s.df t ≤ (s.add r).df t
    unfold MemoryStream.add
    dsimp only
    split <;> omega
  | retrieveQ q now k tf => exact le_refl _
  | recentN n => exact le_refl _

theorem df_le_applyOps (ops : List MemOp) :
    ∀ (s : MemoryStream) (t : String), s.df t ≤ (applyOps s ops).df t := by
  induction ops with
  | nil => intro s t; exact le_refl _
  | cons op ops ih =>
    intro s t
    exact le_trans (df_le_applyOp s op t) (ih (applyOp s op).1 t)

/-- C9: `add` bumps the DF count of each distinct token of the new record
    by exactly 1 and leaves other tokens alone; `retrieve` and `recent`
    leave the whole stream state (records and DF map) unchanged; over any
    operation sequence every DF count is non-decreasing. -/
theorem df_monotone_spec :
    (∀ (s : MemoryStream) (r : MemoryRecord) (t : String),
        (t ∈ tokenize r.text → (s.add r).df t = s.df t + 1) ∧
        (t ∉ tokenize r.text → (s.add r).df t = s.df t)) ∧
    (∀ (s : MemoryStream) (q : String) (now : ℤ) (k : ℕ)
        (tf : Option (List String)), (applyOp s (MemOp.retrieveQ q now k tf)).1 = s) ∧
    (∀ (s : MemoryStream) (n : ℕ), (applyOp s (MemOp.recentN n)).1 = s) ∧
    (∀ (s : MemoryStream) (ops : List MemOp) (t : String),
        s.df t ≤ (applyOps s ops).df t) := by
  refine ⟨?_, fun _ _ _ _ _ => rfl, fun _ _ => rfl, fun s ops t => df_le_applyOps ops s t⟩
  intro s r t
  constructor
  · intro h
    show (if t ∈ tokenize r.text then s.df t + 1 else s.df t) = s.df t + 1
    rw [if_pos h]
  · intro h
    show (if t ∈ tokenize r.text then s.df t + 1 else s.df t) = s.df t
    rw [if_neg h]

/-- Witness for C9: "coffee" occurs twice in the new record but its DF
    count goes up by exactly 1; "tea" does not occur and is unchanged. -/
theorem df_monotone_witness :
    (sOne.add rParty).df "coffee" = sOne.df "coffee" + 1 ∧
    (sOne.add rParty).df "tea" = sOne.df "tea" :=
  ⟨(df_monotone_spec.1 sOne rParty "coffee").1 (by decide),
   (df_monotone_spec.1 sOne rParty "tea").2 (by decide)⟩

/-! ## C7: the recency term -/

/-- C7: the recency component equals `0.99 ^ (elapsed hours floored at 0)`:
    it is 1 for records dated at or after `now`, always strictly positive
    (hence never negative), and strictly decreasing in elapsed time while
    the record is in the past. -/
theorem recency_spec (t now : ℤ) :
    (now ≤ t → recencyScore t now = 1) ∧
    0 < recencyScore t now ∧
    (∀ t2 : ℤ, t2 < t → t ≤ now → recencyScore t2 now < recencyScore t now) := by
  refine ⟨?_, ?_, ?_⟩
  · intro h
    unfold recencyScore
    have hle : ((now : ℝ) - (t : ℝ)) / 3600000 ≤ 0 := by
      apply div_nonpos_of_nonpos_of_nonneg
      · have h' : (now : ℝ) ≤ (t : ℝ) := by exact_mod_cast h
        linarith
      · norm_num
    rw [max_eq_left hle, Real.rpow_zero]
  · exact Real.rpow_pos_of_pos (by norm_num) _
  · intro t2 h2 hn
    unfold recencyScore
    have h1 : (0 : ℝ) ≤ ((now : ℝ) - (t : ℝ)) / 3600000 := by
      apply div_nonneg
      · have h' : (t : ℝ) ≤ (now : ℝ) := by exact_mod_cast hn
        linarith
      · norm_num
    have h3 : ((now : ℝ) - (t : ℝ)) / 3600000 < ((now : ℝ) - (t2 : ℝ)) / 3600000 := by
      rw [div_lt_div_iff_of_pos_right (by norm_num : (0:ℝ) < 3600000)]
      have h' : (t2 : ℝ) < (t : ℝ) := by exact_mod_cast h2
      linarith
    rw [max_eq_right h1, max_eq_right (le_trans h1 (le_of_lt h3))]
    exact Real.rpow_lt_rpow_of_exponent_gt (by norm_num) (by norm_num) h3

/-- Witness for C7: value 1 at zero elapsed time, positivity, and strict
    decay after one elapsed hour. -/
theorem recency_spec_witness :
    recencyScore 5 5 = 1 ∧ 0 < recencyScore 5 5 ∧
    recencyScore 0 3600000 < recencyScore 3600000 3600000 :=
  ⟨(recency_spec 5 5).1 (by norm_num), (recency_spec 5 5).2.1,
   (recency_spec 3600000 3600000).2.2 0 (by norm_num) (by norm_num)⟩

/-! ## C8: vanishing relevance -/

/-- C8: a record sharing no surviving token with the query has relevance
    exactly 0, and relevance is 0 whenever either TF-IDF vector has zero
    norm accumulator. -/
theorem relevance_zero_spec (s : MemoryStream) (q : String) (r : MemoryRecord) :
    ((∀ tok ∈ tokenize q, tok ∉ tokenize r.text) → relevance s q r = 0) ∧
    (normSq (s.tfidf (tokenize q)) = 0 → relevance s q r = 0) ∧
    (normSq (s.tfidf (tokenize r.text)) = 0 → relevance s q r = 0) := by
  refine ⟨?_, ?_, ?_⟩
  · intro h
    have hdot : dotS (s.tfidf (tokenize q)) (s.tfidf (tokenize r.text)) = 0 := by
      unfold dotS
      apply List.sum_eq_zero
      intro x hx
      rw [List.mem_map] at hx
      obtain ⟨tok, htok, rfl⟩ := hx
      have h1 : tok ∈ tokenize q := by
        have h1' : tok ∈ (tokenize q).dedup := htok
        exact List.mem_dedup.mp h1'
      have h2 : tok ∉ (s.tfidf (tokenize r.text)).support := by
        show tok ∉ (tokenize r.text).dedup
        rw [List.mem_dedup]
        exact h tok h1
      rw [if_neg h2, mul_zero]
    unfold relevance cosineSparse
    by_cases hc : normSq (s.tfidf (tokenize q)) = 0 ∨ normSq (s.tfidf (tokenize r.text)) = 0
    · rw [if_pos hc]
    · rw [if_neg hc, hdot, zero_div]
  · intro h
    unfold relevance cosineSparse
    rw [if_pos (Or.inl h)]
  · intro h
    unfold relevance cosineSparse
    rw [if_pos (Or.inr h)]

/-- Witness for C8: a token-disjoint query, and the empty query whose
    TF-IDF vector has zero norm. -/
theorem relevance_zero_witness :
    relevance sOne "party tonight" rCoffee = 0 ∧ relevance sOne "" rCoffee = 0 := by
  constructor
  · exact (relevance_zero_spec sOne "party tonight" rCoffee).1 (by decide)
  · apply (relevance_zero_spec sOne "" rCoffee).2.1
    have h0 : tokenize "" = [] := rfl
    simp [normSq, MemoryStream.tfidf, h0]

/-! ## C1: `retrieve` returns the top-k eligible records by composite score -/

/-- C1: `retrieve(q, now, k, typeFilter?)` scores exactly the records
    whose type passes the filter, each score being
    relevance + recency + importance; it returns at most `k` of them (all
    of them when at most `k` are eligible), sorted by non-increasing
    composite score, and every returned entry scores at least as high as
    every eligible entry left out. -/
theorem retrieve_topk_spec (s : MemoryStream) (q : String) (now : ℤ) (k : ℕ)
    (tf : Option (List String)) :
    (s.retrieve q now k tf).length = min k (s.records.filter (passesFilter tf)).length ∧
    (s.retrieve q now k tf).Sorted scoreGE ∧
    (s.retrieve q now k tf ++ (s.retrieveScored q now tf).drop k).Perm
      ((s.records.filter (passesFilter tf)).map (scoreOf s q now)) ∧
    (∀ x ∈ s.retrieve q now k tf, ∀ y ∈ (s.retrieveScored q now tf).drop k,
        y.score ≤ x.score) ∧
    (∀ x ∈ s.retrieve q now k tf,
        x.score = x.relevance + x.recency + x.importance) ∧
    ((s.records.filter (passesFilter tf)).length ≤ k →
        (s.retrieveScored q now tf).drop k = []) := by
  have hr : s.retrieve q now k tf = (s.retrieveScored q now tf).take k := rfl
  have hperm : (s.retrieveScored q now tf).Perm
      ((s.records.filter (passesFilter tf)).map (scoreOf s q now)) :=
    List.perm_insertionSort _ _
  have hsort : (s.retrieveScored q now tf).Sorted scoreGE :=
    List.sorted_insertionSort _ _
  have hlen : (s.retrieveScored q now tf).length =
      ((s.records.filter (passesFilter tf)).map (scoreOf s q now)).length :=
    hperm.length_eq
  have htd : (s.retrieveScored q now tf).take k ++ (s.retrieveScored q now tf).drop k
      = s.retrieveScored q now tf := List.take_append_drop _ _
  refine ⟨?_, ?_, ?_, ?_, ?_, ?_⟩
  · rw [hr, List.length_take, hlen, List.length_map]
  · rw [hr]
    exact hsort.sublist (List.take_sublist _ _)
  · rw [hr, htd]
    exact hperm
  · intro x hx y hy
    rw [hr] at hx
    have hp : ((s.retrieveScored q now tf).take k ++
        (s.retrieveScored q now tf).drop k).Pairwise scoreGE := by
      rw [htd]; exact hsort
    exact (List.pairwise_append.mp hp).2.2 x hx y hy
  · intro x hx
    rw [hr] at hx
    have hxL : x ∈ s.retrieveScored q now tf := List.mem_of_mem_take hx
    have hxs : x ∈ (s.records.filter (passesFilter tf)).map (scoreOf s q now) :=
      hperm.mem_iff.mp hxL
    rw [List.mem_map] at hxs
    obtain ⟨r0, _, rfl⟩ := hxs
    rfl
  · intro hk
    apply List.drop_eq_nil_of_le
    rw [hlen, List.length_map]
    exact hk

/-- Witness for C1 on the empty stream with `k = 2`: the bound holds and
    the "nothing is left out when at most k are eligible" implication is
    discharged. -/
theorem retrieve_topk_witness :
    (MemoryStream.empty.retrieve "query" 0 2 none).length =
      min 2 (MemoryStream.empty.records.filter (passesFilter none)).length ∧
    (MemoryStream.empty.retrieveScored "query" 0 none).drop 2 = [] :=
  ⟨(retrieve_topk_spec MemoryStream.empty "query" 0 2 none).1,
   (retrieve_topk_spec MemoryStream.empty "query" 0 2 none).2.2.2.2.2 (by decide)⟩

/-! ## Concrete agent and world values for witnesses -/

def agentBase : AgentS :=
  { id := "a1", name := "Ada", age := 30, title := "tester", traits := ["kind"],
    bio := "Ada tests things.", goals := ["finish"], home := "Town Plaza",
    persona := "", seedMemory := "alpha beta; gamma delta",
    x := 0, y := 0, dest := none, speed := 1.3, energy := 100,
    memory := MemoryStream.empty, summary := "", importanceSinceReflection := 0,
    currentAction := "idle", lastThought := "" }

def agentLow : AgentS := { agentBase with importanceSinceReflection := 10 }

def agentHigh : AgentS := { agentBase with importanceSinceReflection := 30 }

def worldEmpty : WorldS :=
  { width := 32, height := 32, places := [], chatByPlace := fun _ => none, log := [] }

/-! ## C5: reflection trigger and accumulator reset -/

/-- C5: `maybeReflect` below the threshold 26 changes nothing at all (in
    particular the accumulator is not reset); at or above the threshold
    the accumulator is reset to 0 whatever the gateway returned; and a
    missing reflection response leaves everything but the accumulator
    (memory included) unchanged. -/
theorem maybeReflect_spec (a : AgentS) (w : WorldS) (refl : Option ReflectionObj)
    (now : ℤ) :
    (a.importanceSinceReflection < 26 → maybeReflectA a w refl now = (a, w)) ∧
    (26 ≤ a.importanceSinceReflection →
      (maybeReflectA a w refl now).1.importanceSinceReflection = 0) ∧
    (26 ≤ a.importanceSinceReflection → refl = none →
      maybeReflectA a w refl now = ({ a with importanceSinceReflection := 0 }, w)) := by
  refine ⟨?_, ?_, ?_⟩
  · intro h
    unfold maybeReflectA
    rw [if_pos h]
  · intro h
    unfold maybeReflectA
    rw [if_neg (not_lt.mpr h)]
  · intro h hrefl
    subst hrefl
    unfold maybeReflectA
    rw [if_neg (not_lt.mpr h)]

/-- Witness for C5: below-threshold no-op, above-threshold reset with a
    missing gateway response. -/
theorem maybeReflect_witness :
    maybeReflectA agentLow worldEmpty none 0 = (agentLow, worldEmpty) ∧
    (maybeReflectA agentHigh worldEmpty none 0).1.importanceSinceReflection = 0 ∧
    maybeReflectA agentHigh worldEmpty none 0 =
      ({ agentHigh with importanceSinceReflection := 0 }, worldEmpty) :=
  ⟨(maybeReflect_spec agentLow worldEmpty none 0).1 (by decide),
   (maybeReflect_spec agentHigh worldEmpty none 0).2.1 (by decide),
   (maybeReflect_spec agentHigh worldEmpty none 0).2.2 (by decide) rfl⟩

/-! ## C2: a tick with an unparseable action decision -/

theorem moveTowardsDest_keeps (a : AgentS) :
    (moveTowardsDest a).memory = a.memory ∧
    (moveTowardsDest a).energy = a.energy ∧
    (moveTowardsDest a).importanceSinceReflection = a.importanceSinceReflection ∧
    (moveTowardsDest a).lastThought = a.lastThought := by
  unfold moveTowardsDest
  cases a.dest with
  | none => exact ⟨rfl, rfl, rfl, rfl⟩
  | some dst =>
    dsimp only
    split <;> exact ⟨rfl, rfl, rfl, rfl⟩

/-- C2 (amended): when the gateway's action decision is unparseable, the
    tick records the generic "unsure" thought, sets the state to idle, and
    returns early: no memories are appended, *and* the energy decrement
    and the reflection check of that tick are also skipped (the world and
    the accumulator are untouched); only the movement step (1) has run. -/
theorem step_noDecision_spec (a : AgentS) (w : WorldS) (allAgents : List AgentS)
    (now : ℤ) (mode : String) (rate : String → Option ℕ)
    (refl : Option ReflectionObj) :
    (stepA a w allAgents now mode none rate refl).2 = w ∧
    (stepA a w allAgents now mode none rate refl).1.lastThought =
      "I'm not sure what to do next… I'll observe for now." ∧
    (stepA a w allAgents now mode none rate refl).1.currentAction = "idle" ∧
    (stepA a w allAgents now mode none rate refl).1.memory = a.memory ∧
    (stepA a w allAgents now mode none rate refl).1.energy = a.energy ∧
    (stepA a w allAgents now mode none rate refl).1.importanceSinceReflection =
      a.importanceSinceReflection ∧
    (stepA a w allAgents now mode none rate refl).1.x =
      (match a.dest with | some _ => (moveTowardsDest a).x | none => a.x) ∧
    (stepA a w allAgents now mode none rate refl).1.y =
      (match a.dest with | some _ => (moveTowardsDest a).y | none => a.y) := by
  cases hd : a.dest with
  | none =>
    unfold stepA
    rw [hd]
    exact ⟨rfl, rfl, rfl, rfl, rfl, rfl, rfl, rfl⟩
  | some dst =>
    unfold stepA
    rw [hd]
    refine ⟨rfl, rfl, rfl, ?_, ?_, ?_, rfl, rfl⟩
    · exact (moveTowardsDest_keeps a).1
    · exact (moveTowardsDest_keeps a).2.1
    · exact (moveTowardsDest_keeps a).2.2.1

/-- C2 counterexample: the claim says the energy decrement (step 7) and
    the reflection check (step 8) still execute on an unparseable
    decision.  On an agent with energy 100 and accumulator 30 they would
    give energy 99 and accumulator 0; the code leaves 100 and 30. -/
theorem step_noDecision_cex :
    (stepA agentHigh worldEmpty [] 0 "fast" none (fun _ => none) none).1.energy = 100 ∧
    clampZ (agentHigh.energy - 1) 0 100 = 99 ∧
    (stepA agentHigh worldEmpty [] 0 "fast" none (fun _ => none)
        none).1.importanceSinceReflection = 30 ∧
    (100 : ℤ) ≠ 99 ∧ (30 : ℤ) ≠ 0 :=
  ⟨rfl, by decide, rfl, by decide, by decide⟩

/-! ## C3: perception -/

theorem jsSliceNeg_length_le {α : Type} (l : List α) (n : ℕ) (hn : 1 ≤ n) :
    (jsSliceNeg l n).length ≤ n := by
  unfold jsSliceNeg
  rw [if_neg (by omega : ¬ n = 0), List.length_drop]
  omega

theorem jsSliceNeg_suffix {α : Type} (l : List α) (n : ℕ) :
    List.IsSuffix (jsSliceNeg l n) l := by
  unfold jsSliceNeg
  split
  · exact List.suffix_rfl
  · exact List.drop_suffix _ _

/-- The membership test used by `perceive`'s loop, as a proposition. -/
theorem perceive_filter_iff (w : WorldS) (ag a : AgentS) :
    ((a.id != ag.id) &&
      (match placeAt w ag.x ag.y, placeAt w a.x a.y with
       | some p, some q => q.id == p.id
       | _, _ => false)) = true ↔
    (a.id ≠ ag.id ∧ ∃ p, placeAt w ag.x ag.y = some p ∧
      ∃ pa, placeAt w a.x a.y = some pa ∧ pa.id = p.id) := by
  rw [Bool.and_eq_true, bne_iff_ne]
  apply and_congr_right
  intro _
  cases hp : placeAt w ag.x ag.y with
  | none => simp
  | some p =>
    cases hq : placeAt w a.x a.y with
    | none => simp
    | some q => simp [beq_iff_eq]

/-- C3: `perceive` never lists the perceiving agent among the nearby
    others; an agent is listed exactly when it resolves to the same place
    id as the perceiver; the returned chat is a suffix of the place's chat
    log of length at most 6, and is empty when the perceiver resolves to
    no place. -/
theorem perceive_spec (w : WorldS) (ag : AgentS) (allAgents : List AgentS) :
    (∀ o ∈ (perceive w ag allAgents).others, o.id ≠ ag.id) ∧
    (∀ a ∈ allAgents, a.id ≠ ag.id →
      (∃ p, placeAt w ag.x ag.y = some p ∧
        ∃ pa, placeAt w a.x a.y = some pa ∧ pa.id = p.id) →
      mkOther a ∈ (perceive w ag allAgents).others) ∧
    (∀ o ∈ (perceive w ag allAgents).others, ∃ a, a ∈ allAgents ∧ mkOther a = o ∧
      a.id ≠ ag.id ∧
      ∃ p, placeAt w ag.x ag.y = some p ∧
        ∃ pa, placeAt w a.x a.y = some pa ∧ pa.id = p.id) ∧
    (placeAt w ag.x ag.y = none → (perceive w ag allAgents).chat = []) ∧
    (perceive w ag allAgents).chat.length ≤ 6 ∧
    (∀ p, placeAt w ag.x ag.y = some p →
      List.IsSuffix (perceive w ag allAgents).chat ((w.chatByPlace p.id).getD [])) := by
  have hoth : (perceive w ag allAgents).others =
      (allAgents.filter fun a =>
        (a.id != ag.id) &&
          (match placeAt w ag.x ag.y, placeAt w a.x a.y with
           | some p, some q => q.id == p.id
           | _, _ => false)).map mkOther := rfl
  refine ⟨?_, ?_, ?_, ?_, ?_, ?_⟩
  · intro o ho
    rw [hoth, List.mem_map] at ho
    obtain ⟨a, ha, rfl⟩ := ho
    have hc := ((perceive_filter_iff w ag a).mp (List.mem_filter.mp ha).2).1
    exact hc
  · intro a ha hne hex
    rw [hoth]
    exact List.mem_map_of_mem mkOther
      (List.mem_filter.mpr ⟨ha, (perceive_filter_iff w ag a).mpr ⟨hne, hex⟩⟩)
  · intro o ho
    rw [hoth, List.mem_map] at ho
    obtain ⟨a, ha, rfl⟩ := ho
    have hc := (perceive_filter_iff w ag a).mp (List.mem_filter.mp ha).2
    exact ⟨a, (List.mem_filter.mp ha).1, rfl, hc.1, hc.2⟩
  · intro h
    show (match (placeAt w ag.x ag.y).map (fun p : Place => p.id) with
      | some pid => jsSliceNeg ((w.chatByPlace pid).getD []) 6
      | none => []) = []
    rw [h]
    rfl
  · show (match (placeAt w ag.x ag.y).map (fun p : Place => p.id) with
      | some pid => jsSliceNeg ((w.chatByPlace pid).getD []) 6
      | none => []).length ≤ 6
    cases hp : placeAt w ag.x ag.y with
    | none => simp
    | some p => exact jsSliceNeg_length_le ((w.chatByPlace p.id).getD []) 6 (by omega)
  · intro p hp
    show List.IsSuffix (match (placeAt w ag.x ag.y).map (fun pl : Place => pl.id) with
      | some pid => jsSliceNeg ((w.chatByPlace pid).getD []) 6
      | none => []) ((w.chatByPlace p.id).getD [])
    rw [hp]
    exact jsSliceNeg_suffix _ _

/-- Witness for C3: in a world with no places the perceiver resolves to no
    place, so the chat is empty; and nobody in the roster is listed as the
    perceiver itself. -/
theorem perceive_spec_witness :
    (perceive worldEmpty agentBase [agentBase, agentHigh]).chat = [] ∧
    (∀ o ∈ (perceive worldEmpty agentBase [agentBase, agentHigh]).others,
      o.id ≠ agentBase.id) :=
  ⟨(perceive_spec worldEmpty agentBase [agentBase, agentHigh]).2.2.2.1 rfl,
   (perceive_spec worldEmpty agentBase [agentBase, agentHigh]).1⟩

/-! ## C6: every stored record has importance in [1,10] and a known type -/

theorem fastImportance_bounds (o : Option ℤ) :
    1 ≤ fastImportance o ∧ fastImportance o ≤ 10 := by
  cases o with
  | none => exact ⟨by decide, by decide⟩
  | some v =>
    show 1 ≤ (if v = 0 then 3 else clampZ v 1 10) ∧
      (if v = 0 then 3 else clampZ v 1 10) ≤ 10
    by_cases h : v = 0
    · rw [if_pos h]
      exact ⟨by decide, by decide⟩
    · rw [if_neg h]
      unfold clampZ
      constructor <;> omega

theorem paperImportance_bounds (o : Option ℕ) :
    1 ≤ paperImportance o ∧ paperImportance o ≤ 10 := by
  cases o with
  | none => exact ⟨by decide, by decide⟩
  | some n =>
    show 1 ≤ clampZ (n : ℤ) 1 10 ∧ clampZ (n : ℤ) 1 10 ≤ 10
    unfold clampZ
    constructor <;> omega

theorem goodRec_mkStepRecord (now : ℤ) (mode : String) (rate : String → Option ℕ)
    (m : MemJson) : goodRec (mkStepRecord now mode rate m) := by
  unfold goodRec mkStepRecord
  dsimp only
  refine ⟨?_, ?_, ?_⟩
  · split
    · exact (paperImportance_bounds _).1
    · exact (fastImportance_bounds _).1
  · split
    · exact (paperImportance_bounds _).2
    · exact (fastImportance_bounds _).2
  · split
    · exact Or.inr (Or.inl rfl)
    · exact Or.inl rfl

theorem goodStream_add {s : MemoryStream} {r : MemoryRecord}
    (hs : ∀ x ∈ s.records, goodRec x) (hr : goodRec r) :
    ∀ x ∈ (s.add r).records, goodRec x := by
  intro x hx
  simp only [MemoryStream.add, List.mem_append, List.mem_singleton] at hx
  rcases hx with hx | rfl
  · exact hs x hx
  · exact hr

theorem goodStream_addSeeds (now : ℤ) :
    ∀ (seeds : List String) (s : MemoryStream) (imp : ℤ),
      (∀ x ∈ s.records, goodRec x) → 1 ≤ imp → imp ≤ 10 →
      ∀ x ∈ (addSeeds now s imp seeds).records, goodRec x := by
  intro seeds
  induction seeds with
  | nil => intro s imp hs _ _; exact hs
  | cons t ts ih =>
    intro s imp hs h1 h10
    exact ih _ _ (goodStream_add hs ⟨h1, h10, Or.inl rfl⟩) (by omega) (by omega)

theorem goodStream_addMemories (now : ℤ) (mode : String) (rate : String → Option ℕ) :
    ∀ (ms : List MemJson) (a : AgentS),
      (∀ x ∈ a.memory.records, goodRec x) →
      ∀ x ∈ (addMemories a now mode rate (some ms)).memory.records, goodRec x := by
  intro ms
  induction ms with
  | nil => intro a ha; exact ha
  | cons m ms ih =>
    intro a ha
    exact ih _ (goodStream_add ha (goodRec_mkStepRecord now mode rate m))

theorem goodStream_insightFold (now : ℤ) :
    ∀ (ins : List String) (s : MemoryStream),
      (∀ x ∈ s.records, goodRec x) →
      ∀ x ∈ ((ins.map fun i =>
          (⟨"", now, "Insight: " ++ i, 8, "reflection"⟩ : MemoryRecord)).foldl
          MemoryStream.add s).records, goodRec x := by
  intro ins
  induction ins with
  | nil => intro s hs; exact hs
  | cons i is ih =>
    intro s hs
    exact ih _ (goodStream_add hs ⟨by norm_num, by norm_num, Or.inr (Or.inr rfl)⟩)

theorem goodStream_maybeReflect (a : AgentS) (w : WorldS)
    (refl : Option ReflectionObj) (now : ℤ)
    (ha : ∀ x ∈ a.memory.records, goodRec x) :
    ∀ x ∈ ((maybeReflectA a w refl now).1).memory.records, goodRec x := by
  unfold maybeReflectA
  split
  · exact ha
  · cases refl with
    | none => exact ha
    | some obj =>
      dsimp only
      split
      · split
        · exact goodStream_insightFold now obj.insights a.memory ha
        · exact goodStream_insightFold now obj.insights a.memory ha
      · exact ha

theorem applyAction_memory (a : AgentS) (w : WorldS) (per : Perception)
    (obj : ActionObj) (now : ℤ) :
    ((applyAction a w per obj now).1).memory = a.memory := by
  unfold applyAction
  dsimp only
  split
  · split <;> rfl
  · split
    · split
      · rfl
      · split <;> rfl
    · rfl

theorem goodStream_stepA (a : AgentS) (w : WorldS) (allAgents : List AgentS)
    (now : ℤ) (mode : String) (dec : Option ActionObj) (rate : String → Option ℕ)
    (refl : Option ReflectionObj) (ha : ∀ x ∈ a.memory.records, goodRec x) :
    ∀ x ∈ ((stepA a w allAgents now mode dec rate refl).1).memory.records,
      goodRec x := by
  have ha1 : ∀ x ∈ (match a.dest with
      | some _ => { moveTowardsDest a with currentAction := "walking" }
      | none => a :
      AgentS).memory.records, goodRec x := by
    cases a.dest with
    | none => exact ha
    | some d =>
      show ∀ x ∈ (moveTowardsDest a).memory.records, goodRec x
      rw [(moveTowardsDest_keeps a).1]
      exact ha
  unfold stepA
  cases dec with
  | none => exact ha1
  | some obj =>
    dsimp only
    apply goodStream_maybeReflect
    show ∀ x ∈ ((applyAction _ w _ obj now).1).memory.records, goodRec x
    rw [applyAction_memory]
    cases hm : obj.memories with
    | none => exact ha1
    | some ms =>
      apply goodStream_addMemories
      exact ha1

/-- C6 (amended): every record ever stored — seeds, fast/paper-mode
    decision memories, reflection insights — has importance in `[1, 10]`
    and type among `observation`/`action`/`reflection`; a missing,
    non-numeric *or zero* proposed importance defaults to 3 (the `|| 3`
    fallback also catches a parsed 0), any other out-of-range value is
    clamped into `[1, 10]`, and a proposed type other than `action` is
    coerced to `observation`. -/
theorem memory_invariant_spec :
    (∀ a : AgentS, AgentEvol a → ∀ r ∈ a.memory.records, goodRec r) ∧
    fastImportance none = 3 ∧
    fastImportance (some 0) = 3 ∧
    (∀ v : ℤ, v ≠ 0 → fastImportance (some v) = clampZ v 1 10) ∧
    (∀ o : Option ℕ, 1 ≤ paperImportance o ∧ paperImportance o ≤ 10) ∧
    (∀ (now : ℤ) (mode : String) (rate : String → Option ℕ) (m : MemJson),
      m.type ≠ "action" → (mkStepRecord now mode rate m).type = "observation") := by
  refine ⟨?_, rfl, rfl, ?_, paperImportance_bounds, ?_⟩
  · intro a h
    induction h with
    | seeded a0 now h0 =>
      apply goodStream_addSeeds now (seedsOf a0) a0.memory 8 _ (by norm_num) (by norm_num)
      intro x hx
      rw [h0] at hx
      cases hx
    | stepped a0 w allAgents now mode dec rate refl _ ih =>
      exact goodStream_stepA a0 w allAgents now mode dec rate refl ih
  · intro v hv
    show (if v = 0 then 3 else clampZ v 1 10) = clampZ v 1 10
    rw [if_neg hv]
  · intro now mode rate m hm
    unfold mkStepRecord
    dsimp only
    rw [if_neg hm]

/-- Witness for C6: a concrete seeded agent's first record is well formed,
    the clamp branch applies to an out-of-range 12, and the paper-mode
    bounds hold at a rated 0. -/
theorem memory_invariant_witness :
    goodRec ⟨"", 5, "alpha beta", 8, "observation"⟩ ∧
    fastImportance (some 12) = clampZ 12 1 10 ∧
    1 ≤ paperImportance (some 0) :=
  ⟨memory_invariant_spec.1 (seedInitialMemories agentBase 5)
      (AgentEvol.seeded agentBase 5 rfl) ⟨"", 5, "alpha beta", 8, "observation"⟩
      (by decide),
   memory_invariant_spec.2.2.2.1 12 (by decide),
   (memory_invariant_spec.2.2.2.2.1 (some 0)).1⟩

/-- C6 counterexample: the claim says numeric out-of-range importances are
    clamped into `[1, 10]`, which at a proposed 0 would store 1; the code
    stores 3 (`parseInt(0) || 3`).  Concretely, a fast-mode tick whose
    decision proposes importance 0 stores a record of importance 3. -/
theorem importance_zero_cex :
    ((stepA agentBase worldEmpty [] 0 "fast"
        (some ⟨"t", "stay", "", "", some [⟨"made coffee for a friend", "observation", some 0⟩]⟩)
        (fun _ => none) none).1.memory.records.map fun r => r.importance) = [3] ∧
    clampZ 0 1 10 = 1 ∧ (3 : ℤ) ≠ 1 :=
  ⟨rfl, by decide, by decide⟩

/-! ## C4: movement resolution -/

theorem dist_nonneg4 (a b c d : ℝ) : 0 ≤ dist a b c d := Real.sqrt_nonneg _

theorem dist_self4 (x y : ℝ) : dist x y x y = 0 := by
  unfold dist
  rw [sub_self, sub_self]
  norm_num

/-- Moving a fraction `t` of the way to `(dx, dy)` scales the remaining
    distance by `1 - t`. -/
theorem dist_scale (x y dx dy t : ℝ) (h1 : t ≤ 1) :
    dist (x + t * (dx - x)) (y + t * (dy - y)) dx dy = (1 - t) * dist x y dx dy := by
  unfold dist
  have e1 : x + t * (dx - x) - dx = (1 - t) * (x - dx) := by ring
  have e2 : y + t * (dy - y) - dy = (1 - t) * (y - dy) := by ring
  rw [e1, e2]
  have e3 : ((1 - t) * (x - dx)) ^ 2 + ((1 - t) * (y - dy)) ^ 2 =
      (1 - t) ^ 2 * ((x - dx) ^ 2 + (y - dy) ^ 2) := by ring
  rw [e3, Real.sqrt_mul (sq_nonneg _), Real.sqrt_sq (by linarith)]

/-- Moving a fraction `t` of the way covers `t` times the distance. -/
theorem dist_move (x y dx dy t : ℝ) (h0 : 0 ≤ t) :
    dist x y (x + t * (dx - x)) (y + t * (dy - y)) = t * dist x y dx dy := by
  unfold dist
  have e1 : x - (x + t * (dx - x)) = t * (x - dx) := by ring
  have e2 : y - (y + t * (dy - y)) = t * (y - dy) := by ring
  rw [e1, e2]
  have e3 : (t * (x - dx)) ^ 2 + (t * (y - dy)) ^ 2 =
      t ^ 2 * ((x - dx) ^ 2 + (y - dy) ^ 2) := by ring
  rw [e3, Real.sqrt_mul (sq_nonneg _), Real.sqrt_sq h0]

theorem clampR_id (v : ℝ) (h0 : 0 ≤ v) (h1 : v ≤ 31.9) : clampR v 0 31.9 = v := by
  unfold clampR
  rw [min_eq_right h1, max_eq_right h0]

/-- A point a fraction `t ∈ [0,1]` of the way between two coordinates in
    `[0, 31.9]` stays in `[0, 31.9]`. -/
theorem convex_bounds (x z t : ℝ) (ht0 : 0 ≤ t) (ht1 : t ≤ 1)
    (hx0 : 0 ≤ x) (hx1 : x ≤ 31.9) (hz0 : 0 ≤ z) (hz1 : z ≤ 31.9) :
    0 ≤ x + t * (z - x) ∧ x + t * (z - x) ≤ 31.9 := by
  constructor
  · nlinarith [mul_nonneg ht0 hz0, mul_nonneg (sub_nonneg.mpr ht1) hx0]
  · nlinarith [mul_le_mul_of_nonneg_left hz1 ht0,
      mul_le_mul_of_nonneg_left hx1 (sub_nonneg.mpr ht1)]

/-- C4: with a destination set, one movement step below 0.01 remaining
    distance snaps exactly onto the destination and clears it; otherwise
    the destination is kept and the agent advances along the segment by
    exactly `min speed d` (so by at most the per-tick speed), the new
    distance being `d - min speed d`.  In both cases the position stays on
    the segment from the old position to the destination (no overshoot)
    and the distance to the destination never increases.  The bounds
    hypotheses are the world-bounds invariant on positions and place
    coordinates. -/
theorem moveTowardsDest_spec (a : AgentS) (dst : Dest)
    (hd : a.dest = some dst)
    (hx0 : 0 ≤ a.x) (hx1 : a.x ≤ 31.9) (hy0 : 0 ≤ a.y) (hy1 : a.y ≤ 31.9)
    (hdx0 : 0 ≤ dst.x) (hdx1 : dst.x ≤ 31.9) (hdy0 : 0 ≤ dst.y) (hdy1 : dst.y ≤ 31.9)
    (hs : 0 ≤ a.speed) :
    dist (moveTowardsDest a).x (moveTowardsDest a).y dst.x dst.y ≤
      dist a.x a.y dst.x dst.y ∧
    (dist a.x a.y dst.x dst.y < 0.01 →
      (moveTowardsDest a).x = dst.x ∧ (moveTowardsDest a).y = dst.y ∧
      (moveTowardsDest a).dest = none) ∧
    (¬ dist a.x a.y dst.x dst.y < 0.01 →
      (moveTowardsDest a).dest = some dst ∧
      dist (moveTowardsDest a).x (moveTowardsDest a).y dst.x dst.y =
        dist a.x a.y dst.x dst.y - min a.speed (dist a.x a.y dst.x dst.y) ∧
      dist a.x a.y (moveTowardsDest a).x (moveTowardsDest a).y =
        min a.speed (dist a.x a.y dst.x dst.y) ∧
      dist a.x a.y (moveTowardsDest a).x (moveTowardsDest a).y ≤ a.speed) ∧
    (∃ t : ℝ, 0 ≤ t ∧ t ≤ 1 ∧
      (moveTowardsDest a).x = a.x + t * (dst.x - a.x) ∧
      (moveTowardsDest a).y = a.y + t * (dst.y - a.y)) := by
  have hm : moveTowardsDest a =
      (if dist a.x a.y dst.x dst.y < 0.01 then
        { a with x := dst.x, y := dst.y, dest := none }
      else
        { a with
          x := clampR (a.x + (dst.x - a.x) / dist a.x a.y dst.x dst.y *
                min a.speed (dist a.x a.y dst.x dst.y)) 0 31.9
          y := clampR (a.y + (dst.y - a.y) / dist a.x a.y dst.x dst.y *
                min a.speed (dist a.x a.y dst.x dst.y)) 0 31.9 }) := by
    unfold moveTowardsDest
    rw [hd]
  by_cases hlt : dist a.x a.y dst.x dst.y < 0.01
  · rw [hm, if_pos hlt]
    refine ⟨?_, fun _ => ⟨rfl, rfl, rfl⟩, fun h => absurd hlt h, 1, by norm_num, by norm_num, by ring, by ring⟩
    show dist dst.x dst.y dst.x dst.y ≤ dist a.x a.y dst.x dst.y
    rw [dist_self4]
    exact dist_nonneg4 _ _ _ _
  · have hd0 : (0 : ℝ) < dist a.x a.y dst.x dst.y :=
      lt_of_lt_of_le (by norm_num) (not_lt.mp hlt)
    have hdne : dist a.x a.y dst.x dst.y ≠ 0 := ne_of_gt hd0
    set d := dist a.x a.y dst.x dst.y with hdd
    set stp := min a.speed d with hstp
    have hstp0 : 0 ≤ stp := le_min hs hd0.le
    have hstple : stp ≤ d := min_le_right _ _
    have ht0 : 0 ≤ stp / d := div_nonneg hstp0 hd0.le
    have ht1 : stp / d ≤ 1 := (div_le_one hd0).mpr hstple
    have hxe : a.x + (dst.x - a.x) / d * stp = a.x + stp / d * (dst.x - a.x) := by
      ring
    have hye : a.y + (dst.y - a.y) / d * stp = a.y + stp / d * (dst.y - a.y) := by
      ring
    have hbx := convex_bounds a.x dst.x (stp / d) ht0 ht1 hx0 hx1 hdx0 hdx1
    have hby := convex_bounds a.y dst.y (stp / d) ht0 ht1 hy0 hy1 hdy0 hdy1
    have hmx : (moveTowardsDest a).x = a.x + stp / d * (dst.x - a.x) := by
      rw [hm, if_neg hlt]
      show clampR (a.x + (dst.x - a.x) / d * stp) 0 31.9 = _
      rw [hxe, clampR_id _ hbx.1 hbx.2]
    have hmy : (moveTowardsDest a).y = a.y + stp / d * (dst.y - a.y) := by
      rw [hm, if_neg hlt]
      show clampR (a.y + (dst.y - a.y) / d * stp) 0 31.9 = _
      rw [hye, clampR_id _ hby.1 hby.2]
    have hnew : dist (moveTowardsDest a).x (moveTowardsDest a).y dst.x dst.y =
        (1 - stp / d) * d := by
      rw [hmx, hmy, dist_scale _ _ _ _ _ ht1]
    have hmoved : dist a.x a.y (moveTowardsDest a).x (moveTowardsDest a).y = stp := by
      rw [hmx, hmy, dist_move _ _ _ _ _ ht0, ← hdd, div_mul_cancel₀ _ hdne]
    refine ⟨?_, fun h => absurd h hlt, fun _ => ⟨?_, ?_, ?_, ?_⟩,
      stp / d, ht0, ht1, hmx, hmy⟩
    · rw [hnew]
      nlinarith [mul_nonneg ht0 hd0.le]
    · rw [hm, if_neg hlt]
      exact hd
    · rw [hnew]
      field_simp
    · exact hmoved
    · rw [hmoved]
      exact min_le_left _ _

/-- Concrete moving agent for the C4 witness. -/
def dest10 : Dest := ⟨0, 10, "p", "P"⟩

def agentMove : AgentS := { agentBase with dest := some dest10 }

/-- Witness for C4: the movement step applied at a concrete in-bounds
    agent and destination. -/
theorem moveTowardsDest_witness :
    dist (moveTowardsDest agentMove).x (moveTowardsDest agentMove).y
        dest10.x dest10.y ≤ dist agentMove.x agentMove.y dest10.x dest10.y ∧
    (dist agentMove.x agentMove.y dest10.x dest10.y < 0.01 →
      (moveTowardsDest agentMove).x = dest10.x ∧
      (moveTowardsDest agentMove).y = dest10.y ∧
      (moveTowardsDest agentMove).dest = none) ∧
    (¬ dist agentMove.x agentMove.y dest10.x dest10.y < 0.01 →
      (moveTowardsDest agentMove).dest = some dest10 ∧
      dist (moveTowardsDest agentMove).x (moveTowardsDest agentMove).y
          dest10.x dest10.y =
        dist agentMove.x agentMove.y dest10.x dest10.y -
          min agentMove.speed (dist agentMove.x agentMove.y dest10.x dest10.y) ∧
      dist agentMove.x agentMove.y (moveTowardsDest agentMove).x
          (moveTowardsDest agentMove).y =
        min agentMove.speed (dist agentMove.x agentMove.y dest10.x dest10.y) ∧
      dist agentMove.x agentMove.y (moveTowardsDest agentMove).x
          (moveTowardsDest agentMove).y ≤ agentMove.speed) ∧
    (∃ t : ℝ, 0 ≤ t ∧ t ≤ 1 ∧
      (moveTowardsDest agentMove).x = agentMove.x + t * (dest10.x - agentMove.x) ∧
      (moveTowardsDest agentMove).y = agentMove.y + t * (dest10.y - agentMove.y)) :=
  moveTowardsDest_spec agentMove dest10 rfl
    (by norm_num [agentMove, agentBase]) (by norm_num [agentMove, agentBase])
    (by norm_num [agentMove, agentBase]) (by norm_num [agentMove, agentBase])
    (by norm_num [dest10]) (by norm_num [dest10])
    (by norm_num [dest10]) (by norm_num [dest10])
    (by norm_num [agentMove, agentBase])

end GenAgents
